import Mathlib

/-!
Verification of `src/admin/search.ts` (NodeBB admin search dictionary builder).

The TypeScript source is shallowly embedded: pure string functions become
Lean functions over `List Char` / `String`; the async, stateful layer
(translator, filesystem, module-global caches) becomes explicit state
passing over a `St` record, with the external collaborators (translator,
sanitizer, filesystem) supplied as an `Env` of abstract functions.
-/

namespace AdminSearch

/-! ## Character classes used by the whitespace regexes in `simplify` -/

/-- `[ \t]` of the JS regexes. -/
def isSpaceTab (c : Char) : Bool := c = ' ' || c = '\t'

/-- `[\n\r]` of the JS regexes. -/
def isNewline (c : Char) : Bool := c = '\n' || c = '\r'

/-- Any character of the whitespace class `[ \t\n\r]`. -/
def isWs (c : Char) : Bool := isSpaceTab c || isNewline c

/-! ## `simplify` — three global regex replaces

`translations
   .replace(/(?:\{{1,2}[^}]*?\}{1,2})/g, '')
   .replace(/(?:[ \t]*[\n\r]+[ \t]*)+/g, '\n')
   .replace(/[\t ]+/g, ' ')`

Each replace is embedded as a left-to-right scan with the exact match
semantics of the (backtracking, leftmost-first) JS regex engine.
-/

/-- First replace of `simplify`: remove all mustaches.
A match starts at a `{`, optionally takes a second `{`, lazily consumes
non-`}` characters up to the first `}`, and greedily takes a second `}`
when present.  Since `{` itself is a non-`}` character, the one-or-two
opening braces are absorbed by the same scan: a candidate beginning at a
`{` succeeds exactly when some `}` occurs later, and ends after that `}`
(plus an immediately following second `}`).  When no `}` ever follows,
every retry from a later `{` fails for the same reason, so the buffered
candidate is emitted verbatim.  `none` = outside a candidate,
`some buf` = inside a candidate whose characters (reversed) are `buf`. -/
def remGo : Option (List Char) → List Char → List Char
  | none, [] => []
  | none, c :: rest =>
    if c = '\x7b' then remGo (some [c]) rest
    else c :: remGo none rest
  | some buf, [] => buf.reverse
  | some _, '\x7d' :: '\x7d' :: rest2 => remGo none rest2
  | some _, '\x7d' :: rest => remGo none rest
  | some buf, c :: rest => remGo (some (c :: buf)) rest

/-- `.replace(/(?:\{{1,2}[^}]*?\}{1,2})/g, '')` on a character list. -/
def removeMustaches (cs : List Char) : List Char := remGo none cs

/-- Flush a pending run of whitespace for the second replace: a maximal
whitespace run containing a line break collapses to a single `'\n'`;
a run without one is emitted unchanged.  `buf` is reversed. -/
def nlFlush (buf : List Char) : List Char :=
  if buf.any isNewline then ['\n'] else buf.reverse

/-- Second replace of `simplify`:
`.replace(/(?:[ \t]*[\n\r]+[ \t]*)+/g, '\n')`.  The greedy pattern
matches exactly the maximal runs of `[ \t\n\r]` that contain at least one
`[\n\r]`; each such run becomes one `'\n'`.  Runs without a line break
match nowhere and pass through. -/
def nlGo (buf : List Char) : List Char → List Char
  | [] => nlFlush buf
  | c :: rest =>
    if isWs c then nlGo (c :: buf) rest
    else nlFlush buf ++ c :: nlGo [] rest

/-- `.replace(/(?:[ \t]*[\n\r]+[ \t]*)+/g, '\n')` on a character list. -/
def collapseNewlines (cs : List Char) : List Char := nlGo [] cs

/-- Third replace of `simplify`: `.replace(/[\t ]+/g, ' ')`.  Each maximal
run of spaces/tabs becomes a single space; `prev` records whether the
previous character was part of such a run. -/
def spGo (prev : Bool) : List Char → List Char
  | [] => []
  | c :: rest =>
    if isSpaceTab c then
      if prev then spGo true rest else ' ' :: spGo true rest
    else c :: spGo false rest

/-- `.replace(/[\t ]+/g, ' ')` on a character list. -/
def collapseSpaces (cs : List Char) : List Char := spGo false cs

/-- `simplify` from `src/admin/search.ts`: remove all mustaches, collapse
whitespace runs containing line breaks to one newline, collapse remaining
horizontal whitespace runs to single spaces. -/
def simplify (translations : String) : String :=
  ⟨collapseSpaces (collapseNewlines (removeMustaches translations.data))⟩

/-! ## `filterDirectories`

`directories.map(dir => dir.replace(/^.*(admin.*?).tpl$/, '$1')
                           .split(path.sep).join('/'))
            .filter(dir => !dir.endsWith('.js') &&
                           !dir.includes('/partials/') &&
                           /\/.*\//.test(dir) &&
                           !/manage\/(category|group|category-analytics)$/.test(dir))`

`path.sep` is the POSIX separator `/` (the deployment platform of the
server), so the split/join normalization is modelled over `/`.
-/

/-- No line terminators: `.` in a JS regex (no `s` flag) does not match
`\n` or `\r`. -/
def noNlB (l : List Char) : Bool := l.all (fun c => !(c = '\n' || c = '\r'))

/-- One candidate start `a` for the anchored regex `^.*(admin.*?).tpl$`:
`admin` literally at `a`, the group ends at `length - 4`, the unescaped
`.` before `tpl` takes one arbitrary (non-terminator) character, `tpl`
closes the string, and every character consumed by `.*`/`.*?`/`.` is a
non-terminator. -/
def tplMatchAt (s : List Char) (a : Nat) : Bool :=
  decide (a + 9 ≤ s.length) &&
  (s.drop a).take 5 == "admin".data &&
  s.drop (s.length - 3) == "tpl".data &&
  noNlB (s.take (s.length - 3))

/-- `dir.replace(/^.*(admin.*?).tpl$/, '$1')`: the greedy `^.*` picks the
last candidate start, and the whole (anchored) match is replaced by the
group, i.e. the slice from the start of `admin` up to the last four
characters.  Without a match the string is unchanged. -/
def adminReplace (s : List Char) : List Char :=
  match ((List.range s.length).filter (tplMatchAt s)).getLast? with
  | some a => (s.drop a).take (s.length - 4 - a)
  | none => s

/-- JS `split('/')` on a character list (empty input gives one empty
segment, separators at the ends give empty segments, like JS). -/
def splitSlashAux (cur : List Char) : List Char → List (List Char)
  | [] => [cur.reverse]
  | '/' :: rest => cur.reverse :: splitSlashAux [] rest
  | c :: rest => splitSlashAux (c :: cur) rest

/-- `dir.split(path.sep).join('/')` with `path.sep = '/'`. -/
def splitJoinSlash (s : List Char) : List Char :=
  List.intercalate ['/'] (splitSlashAux [] s)

/-- `suffix.endsWith` check on character lists (JS `String.endsWith`). -/
def endsWithL (suf s : List Char) : Bool :=
  s.drop (s.length - suf.length) == suf

/-- JS `String.includes` on character lists. -/
def containsSub (pat : List Char) : List Char → Bool
  | [] => pat.isEmpty
  | c :: rest => (c :: rest).take pat.length == pat || containsSub pat rest

/-- Helper for `/\/.*\//.test`: some later `/` is reachable from here with
only non-terminator characters in between. -/
def slashAfter : List Char → Bool
  | [] => false
  | '/' :: _ => true
  | '\n' :: _ => false
  | '\r' :: _ => false
  | _ :: rest => slashAfter rest

/-- `/\/.*\//.test(dir)`: two `/` with only non-terminators between. -/
def twoSlashes : List Char → Bool
  | [] => false
  | '/' :: rest => slashAfter rest || twoSlashes rest
  | _ :: rest => twoSlashes rest

/-- `/manage\/(category|group|category-analytics)$/.test(dir)`. -/
def manageTail (s : List Char) : Bool :=
  endsWithL "manage/category".data s ||
  endsWithL "manage/group".data s ||
  endsWithL "manage/category-analytics".data s

/-- The filter predicate of `filterDirectories`. -/
def keepDir (s : List Char) : Bool :=
  !endsWithL ".js".data s &&
  !containsSub "/partials/".data s &&
  twoSlashes s &&
  !manageTail s

/-- `filterDirectories` from `src/admin/search.ts`. -/
def filterDirectories (directories : List String) : List String :=
  (directories.map
    (fun dir => (⟨splitJoinSlash (adminReplace dir.data)⟩ : String))).filter
    (fun dir => keepDir dir.data)

/-! ## `nsToTitle`

`namespace.replace('admin/', '').split('/')
   .map(str => str[0].toUpperCase() + str.slice(1)).join(' > ')
   .replace(/[^a-zA-Z> ]/g, ' ')`

`replace` with a string pattern removes only the first occurrence.
`str[0]` of an empty segment is `undefined`, and
`undefined.toUpperCase()` throws a TypeError, so the function is partial:
the result is `none` exactly when some `/`-segment is empty.  The final
regex replaces every character outside letters, `>` and space with a
space (JS `toUpperCase` is modelled by `Char.toUpper`; admin namespaces
are ASCII). -/

/-- `replace('admin/', '')`: drop the first occurrence of `admin/`. -/
def replaceFirstAdmin : List Char → List Char
  | [] => []
  | c :: rest =>
    if (c :: rest).take 6 == "admin/".data then rest.drop 5
    else c :: replaceFirstAdmin rest

/-- `str => str[0].toUpperCase() + str.slice(1)`; `none` models the
TypeError on an empty segment. -/
def titlecase : List Char → Option (List Char)
  | [] => none
  | c :: rest => some (c.toUpper :: rest)

/-- `.replace(/[^a-zA-Z> ]/g, ' ')`: every character outside letters,
`>`, and space becomes a space. -/
def stripToSpace (l : List Char) : List Char :=
  l.map (fun c =>
    if ('a' ≤ c && c ≤ 'z') || ('A' ≤ c && c ≤ 'Z') || c = '>' || c = ' '
    then c else ' ')

/-- Title-case every segment; `none` models the TypeError thrown by the
JS `.map` callback at the first empty segment. -/
def titlecaseAll : List (List Char) → Option (List (List Char))
  | [] => some []
  | seg :: rest =>
    match titlecase seg, titlecaseAll rest with
    | some s2, some r2 => some (s2 :: r2)
    | _, _ => none

/-- `nsToTitle` from `src/admin/search.ts`; `none` models the thrown
TypeError on an empty segment. -/
def nsToTitle (ns : String) : Option String :=
  (titlecaseAll (splitSlashAux [] (replaceFirstAdmin ns.data))).map
    (fun segs => ⟨stripToSpace (List.intercalate " > ".data segs)⟩)

/-! ## The title key of `buildNamespace`

`const titleMatch = namespace.match(/admin\/(.+?)\/(.+?)$/);
 const title = titleMatch ?
   `[[admin/menu:section-${titleMatch[1] === 'development' ? 'advanced'
     : titleMatch[1]}]]${titleMatch[2] ? (` > [[admin/menu:${
     titleMatch[1]}/${titleMatch[2]}]]`) : ''}` : '';`
-/

/-- Backtracking search for the two groups after a literal `admin/`:
the lazy group 1 (`.+?`, at least one non-terminator) ends at the first
`/` whose remainder is a non-empty run of non-terminators (group 2,
`(.+?)$`); failing that, group 1 extends across the `/`.  A line
terminator aborts this start position. -/
def g1Search (acc : List Char) : List Char → Option (List Char × List Char)
  | [] => none
  | c :: rest =>
    if c = '/' then
      if acc ≠ [] && rest ≠ [] && noNlB rest then some (acc.reverse, rest)
      else g1Search (c :: acc) rest
    else if c = '\n' || c = '\r' then none
    else g1Search (c :: acc) rest

/-- `namespace.match(/admin\/(.+?)\/(.+?)$/)`: try each start position
left to right; at a position starting with `admin/`, search for the two
groups; else (or on failure) move one character right. -/
def adminTitleMatch : List Char → Option (List Char × List Char)
  | [] => none
  | c :: rest =>
    if (c :: rest).take 6 == "admin/".data then
      match g1Search [] (rest.drop 5) with
      | some r => some r
      | none => adminTitleMatch rest
    else adminTitleMatch rest

/-- The raw (untranslated) title key computed by `buildNamespace`. -/
def titleKey (ns : String) : String :=
  match adminTitleMatch ns.data with
  | none => ""
  | some (sec, page) =>
    "[[admin/menu:section-" ++
      (if sec = "development".data then "advanced" else (⟨sec⟩ : String)) ++
      "]]" ++
      (if page ≠ [] then
        " > [[admin/menu:" ++ (⟨sec⟩ : String) ++ "/" ++ (⟨page⟩ : String) ++ "]]"
      else "")

/-! ## The stateful layer

The async functions `initFallback`, `fallback`, `buildNamespace`,
`initDict` and `getDictionary` are embedded as explicit state passing.
The two module-global caches live in the state `St`, together with an
event log of every external call (directory walks, translation lookups,
translate calls, template-file reads), so that "no recomputation
happened" is expressible as equality of states.  External collaborators
— the translator (`Translator.create(language).getTranslation`,
`.translate`, `Translator.removePatterns`), the sanitizer
(`sanitize-html`), `file.walk` and `fs.promises.readFile` — are
abstract functions of an environment `Env`; a rejected promise is an
`Except.error`. -/

/-- A dictionary entry.  The TS field `namespace` (a Lean keyword) is
named `ns`; an absent `title` (JS `undefined`) is `none`. -/
structure Entry where
  ns : String
  translations : String
  title : Option String
deriving DecidableEq, Repr

/-- The external collaborators.  A translation table is a key-value list
in insertion order (`Object.keys` / `Object.values` order); `.ok none`
models a falsy table. -/
structure Env where
  walkResult : Except String (List String)
  getTranslation : String → String → Except String (Option (List (String × String)))
  translate : String → String → Except String String
  readFile : String → Except String String
  sanitizeFn : String → String
  removePatterns : String → String

/-- Module state: the two caches plus a log of external calls. -/
structure St where
  fallbackCache : List (String × Entry)
  cache : List (String × List Entry)
  walks : Nat
  getTranslationCalls : List (String × String)
  translateCalls : List (String × String)
  reads : List String
deriving DecidableEq, Repr

/-- The empty initial state (fresh module load). -/
def St.init : St := ⟨[], [], 0, [], [], []⟩

/-- Association-list lookup (JS object property read). -/
def lookupStr {α : Type} (k : String) : List (String × α) → Option α
  | [] => none
  | (k2, v) :: rest => if k2 = k then some v else lookupStr k rest

/-- `initFallback` from `src/admin/search.ts`: read the template file,
derive the title via `nsToTitle` (which may throw), sanitize, remove
translator patterns, simplify, and append the title as a final line. -/
def initFallback (env : Env) (ns : String) (s : St) : Except String Entry × St :=
  let s1 : St := { s with reads := s.reads ++ [ns] }
  match env.readFile ns with
  | .error e => (.error e, s1)
  | .ok template =>
    match nsToTitle ns with
    | none => (.error "TypeError", s1)
    | some title =>
      let translations :=
        simplify (env.removePatterns (env.sanitizeFn template)) ++ "\n" ++ title
      (.ok { ns := ns, translations := translations, title := some title }, s1)

/-- `fallback` from `src/admin/search.ts`: permanent per-namespace
memoization of `initFallback`. -/
def fallback (env : Env) (ns : String) (s : St) : Except String Entry × St :=
  match lookupStr ns s.fallbackCache with
  | some e => (.ok e, s)
  | none =>
    match initFallback env ns s with
    | (.error e, s1) => (.error e, s1)
    | (.ok params, s1) =>
      (.ok params, { s1 with fallbackCache := (ns, params) :: s1.fallbackCache })

/-- `buildNamespace` from `src/admin/search.ts`.  Everything from the
translation lookup through the fallback and the title translation sits
inside one try/catch, so the function is total: any error — including a
fallback file-read failure, reached via `return await fallback(...)` —
degrades to the entry with empty translations and no title. -/
def buildNamespace (env : Env) (language ns : String) (s : St) : Entry × St :=
  let s1 : St :=
    { s with getTranslationCalls := s.getTranslationCalls ++ [(language, ns)] }
  match env.getTranslation language ns with
  | .error _ => ({ ns := ns, translations := "", title := none }, s1)
  | .ok table =>
    if table = none ∨ table = some [] then
      match fallback env ns s1 with
      | (.ok e, s2) => (e, s2)
      | (.error _, s2) => ({ ns := ns, translations := "", title := none }, s2)
    else
      let vals := (table.getD []).map Prod.snd
      let str := env.sanitizeFn (String.intercalate "\n" vals)
      let title := titleKey ns
      let s2 : St :=
        { s1 with translateCalls := s1.translateCalls ++ [(language, title)] }
      match env.translate language title with
      | .error _ => ({ ns := ns, translations := "", title := none }, s2)
      | .ok translatedTitle =>
        ({ ns := ns, translations := str ++ "\n" ++ title,
           title := some translatedTitle }, s2)

/-- Sequentialization of `Promise.all(namespaces.map(ns =>
buildNamespace(language, ns)))`; each build is total, so the whole list
is. -/
def buildAll (env : Env) (language : String) : List String → St → List Entry × St
  | [], s => ([], s)
  | ns :: rest, s =>
    let (e, s1) := buildNamespace env language ns s
    let (es, s2) := buildAll env language rest s1
    (e :: es, s2)

/-- `getAdminNamespaces` composed into `initDict`: walk the admin views
directory (which may reject), filter, and build every namespace. -/
def initDict (env : Env) (language : String) (s : St) :
    Except String (List Entry) × St :=
  let s1 : St := { s with walks := s.walks + 1 }
  match env.walkResult with
  | .error e => (.error e, s1)
  | .ok directories =>
    let (es, s2) := buildAll env language (filterDirectories directories) s1
    (.ok es, s2)

/-- `getDictionary` from `src/admin/search.ts`: per-language memoization
of `initDict`. -/
def getDictionary (env : Env) (language : String) (s : St) :
    Except String (List Entry) × St :=
  match lookupStr language s.cache with
  | some d => (.ok d, s)
  | none =>
    match initDict env language s with
    | (.error e, s1) => (.error e, s1)
    | (.ok params, s1) =>
      (.ok params, { s1 with cache := (language, params) :: s1.cache })

/-- `n` sequential `buildNamespace` calls for the same language and
namespace (used to state the at-most-one-file-read property). -/
def buildRepeat (env : Env) (language ns : String) : Nat → St → List Entry × St
  | 0, s => ([], s)
  | n + 1, s =>
    let (e, s1) := buildNamespace env language ns s
    let (es, s2) := buildRepeat env language ns n s1
    (e :: es, s2)

end AdminSearch

namespace AdminSearch

/-! ## Claim theorems -/

/-- C1 counterexample: the claim's exact expected output keeps a double
space between `a` and `c`, but the third replace of `simplify`
(`/[\t ]+/g` to a single space) collapses it, so `simplify` applied to
the claim's input does not return the claimed string. -/
theorem C1_simplify_exact_output_false :
    simplify "a \x7b\x7bb\x7d\x7d c\n\n  d \t e" ≠ "a  c\nd e" := by decide

/-- C1 (amended): `simplify` on the string `a {{b}} c\n\n  d \t e`
returns exactly `a c\nd e` — the mustache span is removed, the blank-line
run collapses to one newline, and every run of tabs/spaces within a line,
including the two spaces left around the removed mustache, collapses to a
single space. -/
theorem C1_simplify_exact_output :
    simplify "a \x7b\x7bb\x7d\x7d c\n\n  d \t e" = "a c\nd e" := by decide

/-- C6: `filterDirectories` on the five-element list keeps exactly
`admin/manage/users` — the `.js` path, the `/partials/` path, the
top-level `admin/general` page and the `manage/category` page are all
dropped — and `filterDirectories` on the empty list returns the empty
list. -/
theorem C6_filterDirectories_example :
    filterDirectories ["/x/admin/manage/users.tpl", "/x/admin/manage/users.js",
      "/x/admin/partials/foo.tpl", "/x/admin/manage/category.tpl",
      "/x/admin/general.tpl"] = ["admin/manage/users"] ∧
    filterDirectories [] = [] := by
  exact ⟨by decide, rfl⟩

/-! ### State-independence helper lemmas -/

/-- The value computed by `initFallback` depends only on the environment
and the namespace, not on the state (the state only logs the read). -/
theorem initFallback_fst_congr (env : Env) (ns : String) (s t : St) :
    (initFallback env ns s).1 = (initFallback env ns t).1 := by
  unfold initFallback
  cases env.readFile ns with
  | error e => rfl
  | ok template => cases nsToTitle ns <;> rfl

/-- The value computed by `fallback` depends on the state only through
the fallback cache. -/
theorem fallback_fst_congr (env : Env) (ns : String) (s t : St)
    (h : s.fallbackCache = t.fallbackCache) :
    (fallback env ns s).1 = (fallback env ns t).1 := by
  unfold fallback
  rw [h]
  cases hl : lookupStr ns t.fallbackCache with
  | some e => rfl
  | none =>
    have hfst := initFallback_fst_congr env ns s t
    rcases hs : initFallback env ns s with ⟨rs, s1⟩
    rcases ht : initFallback env ns t with ⟨rt, t1⟩
    rw [hs, ht] at hfst
    simp only at hfst
    subst hfst
    cases rs <;> rfl

/-- `fallback` leaves the fallback cache unchanged up to consing the
computed entry; in particular equal input caches give equal output
caches. -/
theorem fallback_snd_cache_congr (env : Env) (ns : String) (s t : St)
    (h : s.fallbackCache = t.fallbackCache) :
    (fallback env ns s).2.fallbackCache = (fallback env ns t).2.fallbackCache := by
  unfold fallback
  rw [h]
  cases hl : lookupStr ns t.fallbackCache with
  | some e => exact h
  | none =>
    have hfst := initFallback_fst_congr env ns s t
    rcases hs : initFallback env ns s with ⟨rs, s1⟩
    rcases ht : initFallback env ns t with ⟨rt, t1⟩
    rw [hs, ht] at hfst
    simp only at hfst
    subst hfst
    have hs1 : s1.fallbackCache = s.fallbackCache := by
      have : s1 = (initFallback env ns s).2 := by rw [hs]
      rw [this]; unfold initFallback
      cases env.readFile ns with
      | error e => rfl
      | ok template => cases nsToTitle ns <;> rfl
    have ht1 : t1.fallbackCache = t.fallbackCache := by
      have : t1 = (initFallback env ns t).2 := by rw [ht]
      rw [this]; unfold initFallback
      cases env.readFile ns with
      | error e => rfl
      | ok template => cases nsToTitle ns <;> rfl
    cases rs <;> simp [hs1, ht1, h]

/-- The entry returned by `buildNamespace` depends on the state only
through the fallback cache: differences in the dictionary cache or the
call logs cannot change any namespace's entry. -/
theorem buildNamespace_fst_congr (env : Env) (language ns : String) (s t : St)
    (h : s.fallbackCache = t.fallbackCache) :
    (buildNamespace env language ns s).1 = (buildNamespace env language ns t).1 := by
  unfold buildNamespace
  cases hg : env.getTranslation language ns with
  | error e => rfl
  | ok table =>
    by_cases hemp : table = none ∨ table = some []
    · simp only [hemp, if_true]
      have hfst := fallback_fst_congr env ns
        { s with getTranslationCalls := s.getTranslationCalls ++ [(language, ns)] }
        { t with getTranslationCalls := t.getTranslationCalls ++ [(language, ns)] } h
      rcases hs : fallback env ns
        { s with getTranslationCalls := s.getTranslationCalls ++ [(language, ns)] }
        with ⟨rs, s1⟩
      rcases ht : fallback env ns
        { t with getTranslationCalls := t.getTranslationCalls ++ [(language, ns)] }
        with ⟨rt, t1⟩
      rw [hs, ht] at hfst
      simp only at hfst
      subst hfst
      cases rs <;> rfl
    · simp only [hemp, if_false]
      cases env.translate language (titleKey ns) <;> rfl

/-- C2: when the translator's `getTranslation` step throws for a
namespace, `buildNamespace` returns exactly the entry with that
namespace, empty translations and no title, and the state changes only
by logging the lookup — the error does not propagate (`buildNamespace`
is total), the Fallback Builder is not invoked (the fallback cache and
the read log are unchanged), and the same holds when the `translate`
step throws on a non-empty table.  Entries of other namespaces built in
the same dictionary pass are unaffected, because any state reached whose
fallback cache agrees with the original yields the same entries
(`buildNamespace_fst_congr` instantiated as the third conjunct). -/
theorem C2_buildNamespace_error_degrades (env : Env) (language ns : String)
    (s : St) :
    (∀ e, env.getTranslation language ns = .error e →
      buildNamespace env language ns s =
        ({ ns := ns, translations := "", title := none },
         { s with getTranslationCalls := s.getTranslationCalls ++ [(language, ns)] })) ∧
    (∀ tbl e, env.getTranslation language ns = .ok (some tbl) → tbl ≠ [] →
      env.translate language (titleKey ns) = .error e →
      buildNamespace env language ns s =
        ({ ns := ns, translations := "", title := none },
         { s with
            getTranslationCalls := s.getTranslationCalls ++ [(language, ns)],
            translateCalls := s.translateCalls ++ [(language, titleKey ns)] })) ∧
    (∀ ns2 t, t.fallbackCache = s.fallbackCache →
      (buildNamespace env language ns2 t).1 = (buildNamespace env language ns2 s).1) := by
  refine ⟨?_, ?_, ?_⟩
  · intro e hg
    unfold buildNamespace
    rw [hg]
  · intro tbl e hg hne htr
    unfold buildNamespace
    rw [hg]
    have hemp : ¬(some tbl = none ∨ some tbl = some ([] : List (String × String))) := by
      rintro (h | h)
      · exact Option.noConfusion h
      · exact hne (Option.some.injEq .. ▸ h)
    simp only [hemp, if_false]
    rw [htr]
  · intro ns2 t ht
    exact buildNamespace_fst_congr env language ns2 t s ht

/-! ### Sample environments for concrete instantiations -/

/-- A world where every translator call rejects. -/
def envThrow : Env :=
  { walkResult := .ok ["/x/admin/manage/users.tpl"],
    getTranslation := fun _ _ => .error "boom",
    translate := fun _ _ => .error "boom",
    readFile := fun _ => .ok "",
    sanitizeFn := id, removePatterns := id }

/-- A world where every translation table is empty and every template
file read rejects (missing file). -/
def envNoFile : Env :=
  { walkResult := .ok ["/x/admin/manage/users.tpl"],
    getTranslation := fun _ _ => .ok (some []),
    translate := fun _ _ => .ok "",
    readFile := fun _ => .error "ENOENT",
    sanitizeFn := id, removePatterns := id }

/-- A world where every translation table is empty and template files
read successfully with a fixed body. -/
def envEmptyTable : Env :=
  { walkResult := .ok ["/x/admin/manage/users.tpl"],
    getTranslation := fun _ _ => .ok (some []),
    translate := fun _ _ => .ok "",
    readFile := fun _ => .ok "hello  world",
    sanitizeFn := id, removePatterns := id }

/-- A world with one namespace and a one-entry translation table. -/
def envOneEntry : Env :=
  { walkResult := .ok ["/x/admin/manage/users.tpl"],
    getTranslation := fun _ _ => .ok (some [("users.name", "Name")]),
    translate := fun _ k => .ok ("T:" ++ k),
    readFile := fun _ => .ok "",
    sanitizeFn := id, removePatterns := id }

/-- C2 witness: in `envThrow` the lookup rejects and `buildNamespace`
returns the degraded entry, only logging the lookup. -/
theorem C2_buildNamespace_error_degrades_witness :
    buildNamespace envThrow "en-GB" "admin/manage/users" St.init =
      ({ ns := "admin/manage/users", translations := "", title := none },
       { St.init with getTranslationCalls := [("en-GB", "admin/manage/users")] }) :=
  (C2_buildNamespace_error_degrades envThrow "en-GB" "admin/manage/users"
    St.init).1 "boom" rfl

/-- C3 counterexample: with an empty translation table and a rejecting
template read (`envNoFile`), `getDictionary` does not reject — it
resolves with the degraded entry — and the dictionary *is* cached for
the language, contrary to the claim that the whole call rejects and
nothing is cached.  (The `return await fallback(namespace)` sits inside
`buildNamespace`'s try/catch, so the read error is caught there.) -/
theorem C3_fallback_read_failure_not_propagated :
    (getDictionary envNoFile "en-GB" St.init).1 =
      .ok [{ ns := "admin/manage/users", translations := "", title := none }] ∧
    lookupStr "en-GB" (getDictionary envNoFile "en-GB" St.init).2.cache =
      some [{ ns := "admin/manage/users", translations := "", title := none }] :=
  ⟨rfl, rfl⟩

/-- C3 (amended): when reading a namespace's template file fails during
the fallback path, the error is caught inside `buildNamespace` (the
`return await fallback(...)` is inside its try/catch): the namespace
degrades to the entry with empty translations and no title, nothing is
stored in the fallback cache, and — the walk succeeding — the whole
`getDictionary` call still resolves and its result is cached for the
language. -/
theorem C3_fallback_read_failure_caught (env : Env) (language ns : String)
    (s : St) :
    (∀ tbl e, (tbl = none ∨ tbl = some []) →
      env.getTranslation language ns = .ok tbl →
      env.readFile ns = .error e →
      lookupStr ns s.fallbackCache = none →
      buildNamespace env language ns s =
        ({ ns := ns, translations := "", title := none },
         { s with
            getTranslationCalls := s.getTranslationCalls ++ [(language, ns)],
            reads := s.reads ++ [ns] })) ∧
    (∀ dirs, env.walkResult = .ok dirs →
      lookupStr language s.cache = none →
      ∃ d s1, getDictionary env language s = (.ok d, s1) ∧
        lookupStr language s1.cache = some d) := by
  constructor
  · intro tbl e htbl hg hr hcache
    unfold buildNamespace
    rw [hg]
    simp only [htbl, if_pos, if_true]
    unfold fallback
    simp only [hcache]
    unfold initFallback
    rw [hr]
  · intro dirs hw hcache
    unfold getDictionary
    rw [hcache]
    unfold initDict
    rw [hw]
    exact ⟨_, _, rfl, by simp [lookupStr]⟩

/-- C3 witness: in `envNoFile`, an empty table plus a rejecting read
produce the degraded entry and only log the lookup and the read. -/
theorem C3_fallback_read_failure_caught_witness :
    buildNamespace envNoFile "en-GB" "admin/manage/users" St.init =
      ({ ns := "admin/manage/users", translations := "", title := none },
       { St.init with
          getTranslationCalls := [("en-GB", "admin/manage/users")],
          reads := ["admin/manage/users"] }) :=
  (C3_fallback_read_failure_caught envNoFile "en-GB" "admin/manage/users"
    St.init).1 (some []) "ENOENT" (Or.inr rfl) rfl rfl rfl

/-- C5: a second sequential `getDictionary` call with the same language
returns the identical cached dictionary *and the identical state*: since
the state logs every directory walk, translation lookup, translate call
and file read, the state equality says no namespace discovery, no
translator invocation and no file read happen on the second call. -/
theorem C5_getDictionary_second_call_cached (env : Env) (language : String)
    (s : St) (d : List Entry) (s1 : St)
    (h : getDictionary env language s = (.ok d, s1)) :
    getDictionary env language s1 = (.ok d, s1) := by
  unfold getDictionary at h ⊢
  cases hc : lookupStr language s.cache with
  | some d0 =>
    rw [hc] at h
    have hd : d0 = d := by
      have := congrArg Prod.fst h
      simpa using this
    have hs : s = s1 := by
      have := congrArg Prod.snd h
      simpa using this
    rw [← hs, hc, hd]
  | none =>
    rw [hc] at h
    rcases hi : initDict env language s with ⟨r, s2⟩
    rw [hi] at h
    cases r with
    | error e => simp at h
    | ok params =>
      simp only at h
      have hd : params = d := by
        have := congrArg Prod.fst h
        simpa using this
      have hs : ({ s2 with cache := (language, params) :: s2.cache } : St) = s1 := by
        have := congrArg Prod.snd h
        simpa using this
      have hl : lookupStr language s1.cache = some d := by
        rw [← hs]
        simp [lookupStr, hd]
      rw [hl]

/-- The entry stored by a successful `initFallback`: everything the
Fallback Builder computes for a namespace from the template body and the
derived title. -/
def fbEntry (env : Env) (ns content title : String) : Entry :=
  { ns := ns,
    translations :=
      simplify (env.removePatterns (env.sanitizeFn content)) ++ "\n" ++ title,
    title := some title }

/-- An uncached `buildNamespace` on an empty/absent translation table
performs the fallback: it returns the fallback entry, stores it in the
fallback cache, and logs exactly one template read. -/
theorem buildNamespace_empty_table_uncached (env : Env) (language ns : String)
    (s : St) (content title : String)
    (htbl : env.getTranslation language ns = .ok none ∨
      env.getTranslation language ns = .ok (some []))
    (hread : env.readFile ns = .ok content)
    (htitle : nsToTitle ns = some title)
    (hcache : lookupStr ns s.fallbackCache = none) :
    buildNamespace env language ns s =
      (fbEntry env ns content title,
       { s with
          getTranslationCalls := s.getTranslationCalls ++ [(language, ns)],
          reads := s.reads ++ [ns],
          fallbackCache := (ns, fbEntry env ns content title) :: s.fallbackCache }) := by
  unfold buildNamespace
  rcases htbl with h | h
  · rw [h]
    dsimp only
    rw [if_pos (Or.inl rfl)]
    unfold fallback
    simp only [hcache]
    unfold initFallback
    rw [hread, htitle]
    rfl
  · rw [h]
    dsimp only
    rw [if_pos (Or.inr rfl)]
    unfold fallback
    simp only [hcache]
    unfold initFallback
    rw [hread, htitle]
    rfl

/-- A `buildNamespace` on an empty/absent translation table whose
namespace is already in the fallback cache returns the cached entry and
performs no read: only the lookup is logged. -/
theorem buildNamespace_empty_table_cached (env : Env) (language ns : String)
    (s : St) (e : Entry)
    (htbl : env.getTranslation language ns = .ok none ∨
      env.getTranslation language ns = .ok (some []))
    (hcache : lookupStr ns s.fallbackCache = some e) :
    buildNamespace env language ns s =
      (e, { s with
        getTranslationCalls := s.getTranslationCalls ++ [(language, ns)] }) := by
  unfold buildNamespace
  rcases htbl with h | h
  · rw [h]
    dsimp only
    rw [if_pos (Or.inl rfl)]
    unfold fallback
    simp only [hcache]
  · rw [h]
    dsimp only
    rw [if_pos (Or.inr rfl)]
    unfold fallback
    simp only [hcache]

/-- Once the fallback entry is cached, any number of further
`buildNamespace` calls on an empty-table namespace return the cached
entry and never read again. -/
theorem buildRepeat_cached (env : Env) (language ns : String) (e : Entry)
    (htbl : env.getTranslation language ns = .ok none ∨
      env.getTranslation language ns = .ok (some [])) :
    ∀ (n : Nat) (t : St), lookupStr ns t.fallbackCache = some e →
      (buildRepeat env language ns n t).1 = List.replicate n e ∧
      (buildRepeat env language ns n t).2.reads = t.reads := by
  intro n
  induction n with
  | zero => intro t _; exact ⟨rfl, rfl⟩
  | succ m ih =>
    intro t hc
    have hb := buildNamespace_empty_table_cached env language ns t e htbl hc
    have hc2 : lookupStr ns
        ({ t with getTranslationCalls :=
            t.getTranslationCalls ++ [(language, ns)] } : St).fallbackCache =
        some e := hc
    have := ih _ hc2
    simp only [buildRepeat, hb]
    exact ⟨by simp [List.replicate_succ, this.1], this.2⟩

/-- C4: for a namespace whose translation table is absent or empty, with
a readable template and a well-formed namespace (so `nsToTitle` does not
throw), starting from a state with no fallback-cache entry for it:
`buildNamespace` returns exactly the entry `initFallback` computes
(namespace, translations and title fields all equal), and across any
number `n ≥ 1` of such sequential calls every returned entry is that
same entry while the template is read exactly once — the first call
stores the result permanently in the fallback cache. -/
theorem C4_empty_table_falls_back_reads_once (env : Env) (language ns : String)
    (s : St) (content title : String)
    (htbl : env.getTranslation language ns = .ok none ∨
      env.getTranslation language ns = .ok (some []))
    (hread : env.readFile ns = .ok content)
    (htitle : nsToTitle ns = some title)
    (hcache : lookupStr ns s.fallbackCache = none) :
    (initFallback env ns s).1 = .ok (fbEntry env ns content title) ∧
    ∀ n, 1 ≤ n →
      (buildRepeat env language ns n s).1 =
        List.replicate n (fbEntry env ns content title) ∧
      (buildRepeat env language ns n s).2.reads.count ns =
        s.reads.count ns + 1 := by
  constructor
  · unfold initFallback
    rw [hread, htitle]
    rfl
  · intro n hn
    obtain ⟨m, rfl⟩ : ∃ m, n = m + 1 := ⟨n - 1, by omega⟩
    have hb := buildNamespace_empty_table_uncached env language ns s content
      title htbl hread htitle hcache
    set s1 : St :=
      { s with
         getTranslationCalls := s.getTranslationCalls ++ [(language, ns)],
         reads := s.reads ++ [ns],
         fallbackCache := (ns, fbEntry env ns content title) :: s.fallbackCache }
      with hs1
    have hc1 : lookupStr ns s1.fallbackCache = some (fbEntry env ns content title) := by
      simp [hs1, lookupStr]
    have hrest := buildRepeat_cached env language ns
      (fbEntry env ns content title) htbl m s1 hc1
    constructor
    · simp only [buildRepeat, hb]
      simp [List.replicate_succ, hrest.1]
    · simp only [buildRepeat, hb]
      have : (buildRepeat env language ns m s1).2.reads = s.reads ++ [ns] :=
        hrest.2
      simp [this, List.count_append]

/-- C4 witness: in `envEmptyTable`, two sequential builds of
`admin/manage/users` both return the fallback entry and read the
template exactly once. -/
theorem C4_empty_table_falls_back_reads_once_witness :
    (initFallback envEmptyTable "admin/manage/users" St.init).1 =
      .ok (fbEntry envEmptyTable "admin/manage/users" "hello  world"
        "Manage > Users") ∧
    (buildRepeat envEmptyTable "en-GB" "admin/manage/users" 2 St.init).1 =
      List.replicate 2 (fbEntry envEmptyTable "admin/manage/users"
        "hello  world" "Manage > Users") ∧
    (buildRepeat envEmptyTable "en-GB" "admin/manage/users" 2
      St.init).2.reads.count "admin/manage/users" =
      St.init.reads.count "admin/manage/users" + 1 := by
  have h := C4_empty_table_falls_back_reads_once envEmptyTable "en-GB"
    "admin/manage/users" St.init "hello  world" "Manage > Users"
    (Or.inr rfl) rfl (by decide) rfl
  exact ⟨h.1, (h.2 2 (by norm_num)).1, (h.2 2 (by norm_num)).2⟩

/-- The entry `envOneEntry` produces for its single namespace. -/
def oneEntryResult : Entry :=
  { ns := "admin/manage/users",
    translations :=
      "Name\n[[admin/menu:section-manage]] > [[admin/menu:manage/users]]",
    title := some "T:[[admin/menu:section-manage]] > [[admin/menu:manage/users]]" }

/-- The state after one full uncached `getDictionary` in `envOneEntry`. -/
def oneEntrySt : St :=
  { fallbackCache := [],
    cache := [("en-GB", [oneEntryResult])],
    walks := 1,
    getTranslationCalls := [("en-GB", "admin/manage/users")],
    translateCalls :=
      [("en-GB", "[[admin/menu:section-manage]] > [[admin/menu:manage/users]]")],
    reads := [] }

/-- C5 witness: after the first `getDictionary` in `envOneEntry`
completes, the second call returns the same dictionary and the very same
state (no walk, lookup, translate or read events added). -/
theorem C5_getDictionary_second_call_cached_witness :
    getDictionary envOneEntry "en-GB" oneEntrySt =
      (.ok [oneEntryResult], oneEntrySt) :=
  C5_getDictionary_second_call_cached envOneEntry "en-GB" St.init
    [oneEntryResult] oneEntrySt rfl

/-! ### The title-key regex on well-formed namespaces -/

/-- `g1Search` finds the first `/` after a slash-free, terminator-free
group 1 when the remainder is a non-empty terminator-free group 2. -/
theorem g1Search_complete (sec : List Char) :
    ∀ (acc page : List Char),
    (∀ c ∈ sec, ¬c = '/' ∧ ¬c = '\n' ∧ ¬c = '\r') →
    acc.reverse ++ sec ≠ [] → page ≠ [] → noNlB page = true →
    g1Search acc (sec ++ '/' :: page) = some (acc.reverse ++ sec, page) := by
  induction sec with
  | nil =>
    intro acc page _ hne hp hnl
    simp only [List.append_nil] at hne ⊢
    simp only [List.nil_append]
    unfold g1Search
    rw [if_pos rfl]
    have hacc : acc ≠ [] := by simpa using hne
    rw [if_pos]
    simp [hacc, hp, hnl]
  | cons c sec ih =>
    intro acc page hsec hne hp hnl
    have hc := hsec c (List.mem_cons_self c sec)
    have hrec := ih (c :: acc) page
      (fun d hd => hsec d (List.mem_cons_of_mem c hd))
      (by simp) hp hnl
    show g1Search acc (c :: (sec ++ '/' :: page)) = _
    unfold g1Search
    rw [if_neg hc.1, if_neg (by simp [hc.2.1, hc.2.2])]
    rw [hrec]
    simp [List.append_assoc]

/-- On a namespace of the shape `admin/<sec>/<page>` (section non-empty,
slash- and terminator-free; page non-empty and terminator-free) the
title regex captures exactly the section and the page. -/
theorem adminTitleMatch_eq (sec page : List Char)
    (hsec : ∀ c ∈ sec, ¬c = '/' ∧ ¬c = '\n' ∧ ¬c = '\r')
    (hs : sec ≠ []) (hp : page ≠ []) (hnl : noNlB page = true) :
    adminTitleMatch ('a' :: 'd' :: 'm' :: 'i' :: 'n' :: '/' :: (sec ++ '/' :: page)) =
      some (sec, page) := by
  have hg := g1Search_complete sec [] page hsec (by simpa using hs) hp hnl
  simp only [List.reverse_nil, List.nil_append] at hg
  unfold adminTitleMatch
  rw [if_pos (by rfl)]
  simp only [List.drop_succ_cons, List.drop_zero]
  rw [hg]

/-- The character data of `admin/<sec>/<page>` in explicit form. -/
theorem data_admin_ns (sec page : String) :
    ("admin/" ++ sec ++ "/" ++ page).data =
      'a' :: 'd' :: 'm' :: 'i' :: 'n' :: '/' :: (sec.data ++ '/' :: page.data) := by
  simp only [String.data_append]
  simp

/-- On a well-formed `admin/<sec>/<page>` namespace, the raw title key is
the `section-` menu reference (with `development` remapped to
`advanced`) followed by the `<sec>/<page>` menu reference. -/
theorem titleKey_eq (sec page : String)
    (hsec : ∀ c ∈ sec.data, ¬c = '/' ∧ ¬c = '\n' ∧ ¬c = '\r')
    (hs : sec.data ≠ []) (hp : page.data ≠ []) (hnl : noNlB page.data = true) :
    titleKey ("admin/" ++ sec ++ "/" ++ page) =
      "[[admin/menu:section-" ++ (if sec = "development" then "advanced" else sec) ++
        "]] > [[admin/menu:" ++ sec ++ "/" ++ page ++ "]]" := by
  unfold titleKey
  rw [data_admin_ns, adminTitleMatch_eq sec.data page.data hsec hs hp hnl]
  dsimp only
  rw [if_pos hp]
  by_cases hd : sec = "development"
  · rw [if_pos (by rw [hd]), if_pos hd]
    apply String.ext
    simp only [String.data_append]
    simp
  · rw [if_neg (fun h => hd (String.ext h)), if_neg hd]
    apply String.ext
    simp only [String.data_append]
    simp

/-- C7: on a namespace `admin/<sec>/<page>` with a non-empty translation
table and a successful translate step, `buildNamespace` returns the
entry whose `translations` field is the sanitized newline-join of the
table's values in table order, then a newline, then the raw untranslated
title key; the `title` field is the translator-resolved key; and the key
is `[[admin/menu:section-<sec>]] > [[admin/menu:<sec>/<page>]]`, with a
section equal to `development` replaced by `advanced` in the `section-`
token. -/
theorem C7_buildNamespace_success (env : Env) (language sec page : String)
    (s : St) (tbl : List (String × String)) (t : String)
    (hsec : ∀ c ∈ sec.data, ¬c = '/' ∧ ¬c = '\n' ∧ ¬c = '\r')
    (hs : sec.data ≠ []) (hp : page.data ≠ []) (hnl : noNlB page.data = true)
    (hg : env.getTranslation language ("admin/" ++ sec ++ "/" ++ page) =
      .ok (some tbl))
    (hne : tbl ≠ [])
    (ht : env.translate language (titleKey ("admin/" ++ sec ++ "/" ++ page)) =
      .ok t) :
    buildNamespace env language ("admin/" ++ sec ++ "/" ++ page) s =
      ({ ns := "admin/" ++ sec ++ "/" ++ page,
         translations :=
           env.sanitizeFn (String.intercalate "\n" (tbl.map Prod.snd)) ++ "\n" ++
             titleKey ("admin/" ++ sec ++ "/" ++ page),
         title := some t },
       { s with
          getTranslationCalls :=
            s.getTranslationCalls ++ [(language, "admin/" ++ sec ++ "/" ++ page)],
          translateCalls :=
            s.translateCalls ++
              [(language, titleKey ("admin/" ++ sec ++ "/" ++ page))] }) ∧
    titleKey ("admin/" ++ sec ++ "/" ++ page) =
      "[[admin/menu:section-" ++ (if sec = "development" then "advanced" else sec) ++
        "]] > [[admin/menu:" ++ sec ++ "/" ++ page ++ "]]" := by
  constructor
  · unfold buildNamespace
    rw [hg]
    dsimp only
    rw [if_neg ?hcond]
    case hcond =>
      rintro (h | h)
      · exact Option.noConfusion h
      · exact hne (Option.some.injEq .. ▸ h)
    rw [ht]
    rfl
  · exact titleKey_eq sec page hsec hs hp hnl

/-- C7 witness: in `envOneEntry`, building `admin/manage/users` yields
the sanitized joined value, the raw key appended after a newline, and
the translated key as title. -/
theorem C7_buildNamespace_success_witness :
    buildNamespace envOneEntry "en-GB" ("admin/" ++ "manage" ++ "/" ++ "users")
      St.init =
      ({ ns := "admin/manage/users",
         translations :=
           "Name\n[[admin/menu:section-manage]] > [[admin/menu:manage/users]]",
         title :=
           some "T:[[admin/menu:section-manage]] > [[admin/menu:manage/users]]" },
       { St.init with
          getTranslationCalls := [("en-GB", "admin/manage/users")],
          translateCalls :=
            [("en-GB",
              "[[admin/menu:section-manage]] > [[admin/menu:manage/users]]")] }) ∧
    titleKey ("admin/" ++ "manage" ++ "/" ++ "users") =
      "[[admin/menu:section-" ++
        (if ("manage" : String) = "development" then "advanced" else "manage") ++
        "]] > [[admin/menu:" ++ "manage" ++ "/" ++ "users" ++ "]]" :=
  C7_buildNamespace_success envOneEntry "en-GB" "manage" "users" St.init
    [("users.name", "Name")]
    "T:[[admin/menu:section-manage]] > [[admin/menu:manage/users]]"
    (by decide) (by decide) (by decide) (by decide) rfl (by decide) rfl

/-! ### C8: the fallback title -/

/-- Modelled from the spec (claim C8): drop the `admin/` *prefix* from
the namespace. -/
def dropAdminPre (l : List Char) : List Char :=
  if l.take 6 == "admin/".data then l.drop 6 else l

/-- Modelled from the spec (claim C8): the fallback title per the spec's
words — drop the `admin/` prefix, split on `/`, title-case each segment,
join with " > ", and *remove* (strip) every character outside letters,
`>`, and space. -/
def nsToTitleSpecC8 (ns : String) : Option String :=
  (titlecaseAll (splitSlashAux [] (dropAdminPre ns.data))).map
    (fun segs =>
      ⟨(List.intercalate " > ".data segs).filter (fun c =>
        ('a' ≤ c && c ≤ 'z') || ('A' ≤ c && c ≤ 'Z') || c = '>' || c = ' ')⟩)

/-- The amended spec title (claim C8): as the spec says, but every
character outside letters, `>`, and space is *replaced by a space*
rather than removed. -/
def nsToTitleAmendedC8 (ns : String) : Option String :=
  (titlecaseAll (splitSlashAux [] (dropAdminPre ns.data))).map
    (fun segs => ⟨stripToSpace (List.intercalate " > ".data segs)⟩)

/-- C8 counterexample: at the namespace `admin/manage/users2` the code's
`nsToTitle` keeps a trailing space (the digit `2` is replaced by a
space, `/[^a-zA-Z> ]/g` is replaced with `' '`, not stripped), so the
title differs from the spec's stripped title and the claim is false. -/
theorem C8_nsToTitle_strip_false :
    nsToTitle "admin/manage/users2" = some "Manage > Users " ∧
    nsToTitleSpecC8 "admin/manage/users2" = some "Manage > Users" ∧
    nsToTitle "admin/manage/users2" ≠ nsToTitleSpecC8 "admin/manage/users2" := by
  refine ⟨by decide, by decide, by decide⟩

/-- C8 (amended): for every namespace starting with `admin/`, the
fallback title is produced by dropping that prefix, splitting on `/`,
title-casing each segment, joining with " > ", and *replacing with a
space* every character outside letters, `>`, and space; and the fallback
entry's `translations` field ends with this title as its final line
while its `title` field equals it. -/
theorem C8_nsToTitle_amended (ns : String)
    (h6 : ns.data.take 6 = "admin/".data) :
    nsToTitle ns = nsToTitleAmendedC8 ns ∧
    (∀ env s content title, env.readFile ns = .ok content →
      nsToTitle ns = some title →
      ∃ body, initFallback env ns s =
        (.ok { ns := ns, translations := body ++ "\n" ++ title,
               title := some title },
         { s with reads := s.reads ++ [ns] })) := by
  constructor
  · have hrepl : replaceFirstAdmin ns.data = dropAdminPre ns.data := by
      unfold dropAdminPre
      rw [if_pos (by simp [h6])]
      cases hns : ns.data with
      | nil => simp [hns] at h6
      | cons c rest =>
        unfold replaceFirstAdmin
        rw [if_pos (by rw [← hns]; simp [h6])]
        simp
    unfold nsToTitle nsToTitleAmendedC8
    rw [hrepl]
  · intro env s content title hread htitle
    refine ⟨simplify (env.removePatterns (env.sanitizeFn content)), ?_⟩
    unfold initFallback
    rw [hread, htitle]

/-- C8 witness: at `admin/manage/users2` the code title agrees with the
amended (space-replacing) spec title, and the fallback entry embeds it
as last line and as the `title` field. -/
theorem C8_nsToTitle_amended_witness :
    nsToTitle "admin/manage/users2" = nsToTitleAmendedC8 "admin/manage/users2" ∧
    (∃ body, initFallback envEmptyTable "admin/manage/users2" St.init =
      (.ok { ns := "admin/manage/users2",
             translations := body ++ "\n" ++ "Manage > Users ",
             title := some "Manage > Users " },
       { St.init with reads := ["admin/manage/users2"] })) :=
  ⟨(C8_nsToTitle_amended "admin/manage/users2" (by decide)).1,
   (C8_nsToTitle_amended "admin/manage/users2" (by decide)).2 envEmptyTable
     St.init "hello  world" "Manage > Users " rfl (by decide)⟩

/-! ### C10: partiality of the fallback title -/

/-- `titlecaseAll` fails exactly on a list containing an empty segment. -/
theorem titlecaseAll_eq_none_iff : ∀ segs : List (List Char),
    titlecaseAll segs = none ↔ [] ∈ segs := by
  intro segs
  induction segs with
  | nil => simp [titlecaseAll]
  | cons seg rest ih =>
    cases seg with
    | nil => simp [titlecaseAll, titlecase]
    | cons c cs =>
      cases hr : titlecaseAll rest with
      | none => simp [titlecaseAll, titlecase, hr, ih.mp hr]
      | some r2 =>
        have : ¬[] ∈ rest := fun hm => by
          have := (ih.mpr hm); rw [hr] at this; exact Option.noConfusion this
        simp [titlecaseAll, titlecase, hr, this]

/-- C10: `nsToTitle` — and with it the fallback path — is partial: when
the namespace, after removing the first occurrence of `admin/`, has an
empty `/`-segment, `nsToTitle` throws (returns `none`, modelling
`undefined.toUpperCase()`), and `initFallback` then rejects even though
the template file read succeeded; when every segment is non-empty it
returns a defined title. -/
theorem C10_nsToTitle_empty_segment_throws (ns : String) :
    ([] ∈ splitSlashAux [] (replaceFirstAdmin ns.data) → nsToTitle ns = none) ∧
    ([] ∉ splitSlashAux [] (replaceFirstAdmin ns.data) →
      ∃ t, nsToTitle ns = some t) ∧
    (nsToTitle ns = none → ∀ env s content, env.readFile ns = .ok content →
      ∃ e, initFallback env ns s =
        (.error e, { s with reads := s.reads ++ [ns] })) := by
  refine ⟨?_, ?_, ?_⟩
  · intro hmem
    unfold nsToTitle
    rw [(titlecaseAll_eq_none_iff _).mpr hmem]
    rfl
  · intro hmem
    unfold nsToTitle
    cases ht : titlecaseAll (splitSlashAux [] (replaceFirstAdmin ns.data)) with
    | none => exact absurd ((titlecaseAll_eq_none_iff _).mp ht) hmem
    | some segs => exact ⟨_, rfl⟩
  · intro hnone env s content hread
    refine ⟨"TypeError", ?_⟩
    unfold initFallback
    rw [hread, hnone]

/-- C10 witness: `admin/manage/` has an empty final segment, so its
title throws and `initFallback` rejects despite a successful read, while
`admin/manage/users` has all segments non-empty and gets a title. -/
theorem C10_nsToTitle_empty_segment_throws_witness :
    nsToTitle "admin/manage/" = none ∧
    (∃ t, nsToTitle "admin/manage/users" = some t) ∧
    (∃ e, initFallback envEmptyTable "admin/manage/" St.init =
      (.error e, { St.init with reads := ["admin/manage/"] })) :=
  ⟨(C10_nsToTitle_empty_segment_throws "admin/manage/").1 (by decide),
   (C10_nsToTitle_empty_segment_throws "admin/manage/users").2.1 (by decide),
   (C10_nsToTitle_empty_segment_throws "admin/manage/").2.2
     ((C10_nsToTitle_empty_segment_throws "admin/manage/").1 (by decide))
     envEmptyTable St.init "hello  world" rfl⟩

/-! ### C9: idempotence of `simplify` on mustache-free output -/

/-- No two adjacent whitespace characters. -/
def wsRel (a b : Char) : Prop := isWs a = false ∨ isWs b = false

/-- Line breaks are isolated from all other whitespace. -/
def nlRel (a b : Char) : Prop :=
  (isNewline a = false ∨ isWs b = false) ∧ (isWs a = false ∨ isNewline b = false)

theorem isWs_of_st {c : Char} (h : isSpaceTab c = true) : isWs c = true := by
  simp [isWs, h]

theorem not_st_of_not_ws {c : Char} (h : isWs c = false) : isSpaceTab c = false := by
  simp [isWs] at h; exact h.1

theorem not_nl_of_not_ws {c : Char} (h : isWs c = false) : isNewline c = false := by
  simp [isWs] at h; exact h.2

theorem st_not_nl {c : Char} (h : isSpaceTab c = true) : isNewline c = false := by
  simp [isSpaceTab] at h
  rcases h with h | h <;> subst h <;> decide

theorem eq_space {c : Char} (h : isSpaceTab c = true) (h2 : c ≠ '\t') : c = ' ' := by
  simp [isSpaceTab] at h
  rcases h with h | h
  · exact h
  · exact absurd h h2

theorem eq_lf {c : Char} (h : isNewline c = true) (h2 : c ≠ '\r') : c = '\n' := by
  simp [isNewline] at h
  rcases h with h | h
  · exact h
  · exact absurd h h2

theorem ne_cr_of_not_ws {c : Char} (h : isWs c = false) : c ≠ '\r' := by
  intro hc; subst hc; simp [isWs, isNewline] at h

theorem ne_tab_of_not_st {c : Char} (h : isSpaceTab c = false) : c ≠ '\t' := by
  intro hc; subst hc; simp [isSpaceTab] at h

/-- Step equation: the second replace buffers a whitespace character. -/
theorem nlGo_cons_ws {buf : List Char} {c : Char} {rest : List Char}
    (h : isWs c = true) :
    nlGo buf (c :: rest) = nlGo (c :: buf) rest := by
  show (if isWs c = true then nlGo (c :: buf) rest
        else nlFlush buf ++ c :: nlGo [] rest) = _
  rw [if_pos h]

/-- Step equation: the second replace flushes at a non-whitespace
character. -/
theorem nlGo_cons_nws {buf : List Char} {c : Char} {rest : List Char}
    (h : isWs c = false) :
    nlGo buf (c :: rest) = nlFlush buf ++ c :: nlGo [] rest := by
  show (if isWs c = true then nlGo (c :: buf) rest
        else nlFlush buf ++ c :: nlGo [] rest) = _
  rw [if_neg (by simp [h])]

/-- A buffered run with a line break flushes to a single newline. -/
theorem nlFlush_any {buf : List Char} (h : buf.any isNewline = true) :
    nlFlush buf = ['\n'] := by
  unfold nlFlush; rw [if_pos h]

/-- A buffered run without a line break flushes unchanged. -/
theorem nlFlush_not {buf : List Char} (h : buf.any isNewline = false) :
    nlFlush buf = buf.reverse := by
  unfold nlFlush; rw [if_neg (by simp [h])]

/-- Step equation: the third replace opens a space/tab run. -/
theorem spGo_false_cons_st {c : Char} {rest : List Char}
    (h : isSpaceTab c = true) :
    spGo false (c :: rest) = ' ' :: spGo true rest := by
  show (if isSpaceTab c = true then
          (if false = true then spGo true rest else ' ' :: spGo true rest)
        else c :: spGo false rest) = _
  rw [if_pos h, if_neg (by simp)]

/-- Step equation: the third replace swallows inside a space/tab run. -/
theorem spGo_true_cons_st {c : Char} {rest : List Char}
    (h : isSpaceTab c = true) :
    spGo true (c :: rest) = spGo true rest := by
  show (if isSpaceTab c = true then
          (if true = true then spGo true rest else ' ' :: spGo true rest)
        else c :: spGo false rest) = _
  rw [if_pos h, if_pos rfl]

/-- Step equation: the third replace keeps a non-space/tab character. -/
theorem spGo_cons_nst {c : Char} {rest : List Char}
    (h : isSpaceTab c = false) (b : Bool) :
    spGo b (c :: rest) = c :: spGo false rest := by
  cases b
  · show (if isSpaceTab c = true then
            (if false = true then spGo true rest else ' ' :: spGo true rest)
          else c :: spGo false rest) = _
    rw [if_neg (by simp [h])]
  · show (if isSpaceTab c = true then
            (if true = true then spGo true rest else ' ' :: spGo true rest)
          else c :: spGo false rest) = _
    rw [if_neg (by simp [h])]

/-- The third replace is the identity on tab-free text with no adjacent
whitespace. -/
theorem spGo_id_aux : ∀ l : List Char, (∀ c ∈ l, c ≠ '\t') →
    List.Chain' wsRel l →
    spGo false l = l ∧ ((∀ b ∈ l.head?, isSpaceTab b = false) → spGo true l = l) := by
  intro l
  induction l with
  | nil => intro _ _; exact ⟨rfl, fun _ => rfl⟩
  | cons c rest ih =>
    intro hnt hch
    rw [List.chain'_cons'] at hch
    have ih2 := ih (fun d hd => hnt d (List.mem_cons_of_mem c hd)) hch.2
    by_cases hst : isSpaceTab c = true
    · have hcsp : c = ' ' := eq_space hst (hnt c (List.mem_cons_self c rest))
      have hdrop : ∀ b ∈ rest.head?, isSpaceTab b = false := by
        intro b hb
        rcases hch.1 b hb with h | h
        · exact absurd (isWs_of_st hst) (by simp [h])
        · exact not_st_of_not_ws h
      constructor
      · rw [spGo_false_cons_st hst, ih2.2 hdrop, hcsp]
      · intro hhead
        exact absurd hst (by simpa using hhead c rfl)
    · have hst' : isSpaceTab c = false := by simpa using hst
      exact ⟨by rw [spGo_cons_nst hst' false, ih2.1],
        fun _ => by rw [spGo_cons_nst hst' true, ih2.1]⟩

/-- The second replace is the identity on CR-free text with no adjacent
whitespace. -/
theorem nlGo_id_aux : ∀ l : List Char, (∀ c ∈ l, c ≠ '\r') →
    List.Chain' wsRel l →
    nlGo [] l = l ∧
    (∀ c, isWs c = true → c ≠ '\r' → (∀ b ∈ l.head?, isWs b = false) →
      nlGo [c] l = c :: l) := by
  intro l
  induction l with
  | nil =>
    intro _ _
    refine ⟨rfl, fun c hws hcr _ => ?_⟩
    show nlFlush [c] = [c]
    by_cases hnl : isNewline c = true
    · rw [nlFlush_any (by simp [hnl]), eq_lf hnl hcr]
    · rw [nlFlush_not (by simpa using hnl)]
      rfl
  | cons c rest ih =>
    intro hncr hch
    rw [List.chain'_cons'] at hch
    have ih2 := ih (fun d hd => hncr d (List.mem_cons_of_mem c hd)) hch.2
    by_cases hws : isWs c = true
    · have hdrop : ∀ b ∈ rest.head?, isWs b = false := by
        intro b hb
        rcases hch.1 b hb with h | h
        · exact absurd hws (by simp [h])
        · exact h
      constructor
      · rw [nlGo_cons_ws hws]
        exact ih2.2 c hws (hncr c (List.mem_cons_self c rest)) hdrop
      · intro d hd hdcr hhead
        exact absurd hws (by simpa using hhead c rfl)
    · have hws' : isWs c = false := by simpa using hws
      constructor
      · rw [nlGo_cons_nws hws', nlFlush_not (by simp), ih2.1]
        rfl
      · intro d hd hdcr _
        rw [nlGo_cons_nws hws', ih2.1]
        by_cases hnl : isNewline d = true
        · rw [nlFlush_any (by simp [hnl]), eq_lf hnl hdcr]
          rfl
        · rw [nlFlush_not (by simpa using hnl)]
          rfl

/-- Space/tab-only text satisfies the newline-isolation chain. -/
theorem chain_nlRel_of_st : ∀ l : List Char, (∀ a ∈ l, isSpaceTab a = true) →
    List.Chain' nlRel l := by
  intro l
  induction l with
  | nil => intro _; exact List.chain'_nil
  | cons a rest ih =>
    intro hst
    rw [List.chain'_cons']
    refine ⟨fun b hb => ?_, ih (fun d hd => hst d (List.mem_cons_of_mem a hd))⟩
    constructor
    · exact Or.inl (st_not_nl (hst a (List.mem_cons_self a rest)))
    · right
      exact st_not_nl
        (hst b (List.mem_cons_of_mem a (List.mem_of_mem_head? hb)))

/-- A flushed run has isolated line breaks and no CR. -/
theorem nlFlush_good (buf : List Char) (hbuf : ∀ c ∈ buf, isWs c = true) :
    List.Chain' nlRel (nlFlush buf) ∧ (∀ c ∈ nlFlush buf, c ≠ '\r') := by
  by_cases hany : buf.any isNewline = true
  · rw [nlFlush_any hany]
    exact ⟨List.chain'_singleton _, by decide⟩
  · have hany' : buf.any isNewline = false := by simpa using hany
    rw [nlFlush_not hany']
    have hnn : ∀ d ∈ buf, isNewline d = false := by
      intro d hd
      by_contra h
      exact hany (List.any_eq_true.mpr ⟨d, hd, by simpa using h⟩)
    have hstb : ∀ d ∈ buf.reverse, isSpaceTab d = true := by
      intro d hd
      rw [List.mem_reverse] at hd
      have h1 := hbuf d hd
      have h2 := hnn d hd
      simp [isWs, h2] at h1
      exact h1
    refine ⟨chain_nlRel_of_st _ hstb, fun d hd => ?_⟩
    have := st_not_nl (hstb d hd)
    intro hcr; subst hcr; simp [isNewline] at this

/-- Every output of the second replace has its line breaks isolated from
all other whitespace and contains no CR. -/
theorem nlGo_Pz : ∀ (w buf : List Char), (∀ c ∈ buf, isWs c = true) →
    List.Chain' nlRel (nlGo buf w) ∧ (∀ c ∈ nlGo buf w, c ≠ '\r') := by
  intro w
  induction w with
  | nil =>
    intro buf hbuf
    exact nlFlush_good buf hbuf
  | cons c rest ih =>
    intro buf hbuf
    by_cases hws : isWs c = true
    · rw [nlGo_cons_ws hws]
      refine ih (c :: buf) ?_
      intro d hd
      rcases List.mem_cons.mp hd with h | h
      · subst h; exact hws
      · exact hbuf d h
    · have hws' : isWs c = false := by simpa using hws
      rw [nlGo_cons_nws hws']
      have hT := ih [] (by intro d hd; simp at hd)
      have hF := nlFlush_good buf hbuf
      constructor
      · rw [List.chain'_append]
        refine ⟨hF.1, ?_, ?_⟩
        · rw [List.chain'_cons']
          refine ⟨fun b _ => ⟨Or.inl (not_nl_of_not_ws hws'), Or.inl hws'⟩, hT.1⟩
        · intro x _ y hy
          simp at hy
          subst hy
          exact ⟨Or.inr hws', Or.inr (not_nl_of_not_ws hws')⟩
      · intro d hd
        rcases List.mem_append.mp hd with h | h
        · exact hF.2 d h
        · rcases List.mem_cons.mp h with h | h
          · subst h; exact ne_cr_of_not_ws hws'
          · exact hT.2 d h

/-- On newline-isolated CR-free text, the third replace produces CR- and
tab-free text with no adjacent whitespace. -/
theorem spGo_good_aux : ∀ z : List Char, List.Chain' nlRel z →
    (∀ c ∈ z, c ≠ '\r') →
    ((∀ c ∈ spGo false z, c ≠ '\r') ∧ (∀ c ∈ spGo false z, c ≠ '\t') ∧
      List.Chain' wsRel (spGo false z)) ∧
    ((∀ b ∈ z.head?, isNewline b = false) →
      (∀ c ∈ spGo true z, c ≠ '\r') ∧ (∀ c ∈ spGo true z, c ≠ '\t') ∧
      List.Chain' wsRel (' ' :: spGo true z)) := by
  intro z
  induction z with
  | nil =>
    intro _ _
    exact ⟨⟨by simp [spGo], by simp [spGo], by simp [spGo]⟩,
      fun _ => ⟨by simp [spGo], by simp [spGo], by simp [spGo]⟩⟩
  | cons c rest ih =>
    intro hch hncr
    rw [List.chain'_cons'] at hch
    have ih2 := ih hch.2 (fun d hd => hncr d (List.mem_cons_of_mem c hd))
    by_cases hst : isSpaceTab c = true
    · have hBhead : ∀ b ∈ rest.head?, isNewline b = false := by
        intro b hb
        rcases (hch.1 b hb).2 with h | h
        · exact absurd (isWs_of_st hst) (by simp [h])
        · exact h
      have hB := ih2.2 hBhead
      constructor
      · rw [spGo_false_cons_st hst]
        refine ⟨?_, ?_, hB.2.2⟩
        · intro d hd
          rcases List.mem_cons.mp hd with h | h
          · subst h; decide
          · exact hB.1 d h
        · intro d hd
          rcases List.mem_cons.mp hd with h | h
          · subst h; decide
          · exact hB.2.1 d h
      · intro _
        rw [spGo_true_cons_st hst]
        exact hB
    · have hst' : isSpaceTab c = false := by simpa using hst
      have hA := ih2.1
      have hchead : ∀ y ∈ (spGo false rest).head?, wsRel c y := by
        intro y hy
        by_cases hws : isWs c = true
        · have hnlc : isNewline c = true := by
            have h0 := hws
            simp [isWs, hst'] at h0
            exact h0
          cases hr : rest with
          | nil => rw [hr] at hy; simp [spGo] at hy
          | cons b rest' =>
            have hbw : isWs b = false := by
              rcases (hch.1 b (by rw [hr]; rfl)).1 with h | h
              · exact absurd hnlc (by simp [h])
              · exact h
            rw [hr, spGo_cons_nst (not_st_of_not_ws hbw) false] at hy
            simp at hy
            subst hy
            exact Or.inr hbw
        · exact Or.inl (by simpa using hws)
      have hAchain : List.Chain' wsRel (c :: spGo false rest) := by
        rw [List.chain'_cons']
        exact ⟨hchead, hA.2.2⟩
      constructor
      · rw [spGo_cons_nst hst' false]
        refine ⟨?_, ?_, hAchain⟩
        · intro d hd
          rcases List.mem_cons.mp hd with h | h
          · subst h; exact hncr d (List.mem_cons_self d rest)
          · exact hA.1 d h
        · intro d hd
          rcases List.mem_cons.mp hd with h | h
          · subst h; exact ne_tab_of_not_st hst'
          · exact hA.2.1 d h
      · intro hhead
        have hcnl : isNewline c = false := by simpa using hhead c rfl
        have hcws : isWs c = false := by simp [isWs, hst', hcnl]
        rw [spGo_cons_nst hst' true]
        refine ⟨?_, ?_, ?_⟩
        · intro d hd
          rcases List.mem_cons.mp hd with h | h
          · subst h; exact ne_cr_of_not_ws hcws
          · exact hA.1 d h
        · intro d hd
          rcases List.mem_cons.mp hd with h | h
          · subst h; exact ne_tab_of_not_st hst'
          · exact hA.2.1 d h
        · rw [List.chain'_cons']
          refine ⟨fun b hb => ?_, hAchain⟩
          simp at hb
          subst hb
          exact Or.inr hcws

/-- The composition of the two whitespace replaces always yields CR- and
tab-free text with no two adjacent whitespace characters. -/
theorem simplify_tail_normalized (w : List Char) :
    (∀ c ∈ spGo false (nlGo [] w), c ≠ '\r') ∧
    (∀ c ∈ spGo false (nlGo [] w), c ≠ '\t') ∧
    List.Chain' wsRel (spGo false (nlGo [] w)) := by
  have hz := nlGo_Pz w [] (by intro d hd; simp at hd)
  exact (spGo_good_aux (nlGo [] w) hz.1 hz.2).1

/-- C9: `simplify` is idempotent on its own outputs: for every string
`x` such that `simplify x` contains no further mustache pattern (the
mustache-removal pass finds nothing to remove in it, i.e.
`removeMustaches` fixes it), `simplify (simplify x) = simplify x`: the
first pass leaves already-collapsed whitespace untouched. -/
theorem C9_simplify_idempotent (x : String)
    (h : removeMustaches (simplify x).data = (simplify x).data) :
    simplify (simplify x) = simplify x := by
  apply String.ext
  show collapseSpaces (collapseNewlines (removeMustaches (simplify x).data)) =
    (simplify x).data
  rw [h]
  have hn := simplify_tail_normalized (removeMustaches x.data)
  have hd : (simplify x).data = spGo false (nlGo [] (removeMustaches x.data)) := rfl
  rw [hd]
  have h2 := (nlGo_id_aux _ hn.1 hn.2.2).1
  show spGo false (nlGo [] (spGo false (nlGo [] (removeMustaches x.data)))) = _
  rw [h2]
  exact (spGo_id_aux _ hn.2.1 hn.2.2).1

/-- C9 witness: the output of `simplify` on a concrete mustache-bearing
string has no further mustache pattern, and `simplify` fixes it. -/
theorem C9_simplify_idempotent_witness :
    removeMustaches (simplify "a \x7b\x7bb\x7d\x7d c\nd").data =
      (simplify "a \x7b\x7bb\x7d\x7d c\nd").data ∧
    simplify (simplify "a \x7b\x7bb\x7d\x7d c\nd") =
      simplify "a \x7b\x7bb\x7d\x7d c\nd" :=
  ⟨by decide, C9_simplify_idempotent _ (by decide)⟩

end AdminSearch

section Scratch
open AdminSearch
example :
    filterDirectories ["/x/admin/manage/users.tpl", "/x/admin/manage/users.js",
      "/x/admin/partials/foo.tpl", "/x/admin/manage/category.tpl",
      "/x/admin/general.tpl"] = ["admin/manage/users"] := by decide
example : nsToTitle "admin/manage/users2" = some "Manage > Users " := by decide
example : nsToTitle "admin/manage/" = none := by decide
example : titleKey "admin/development/logs" =
    "[[admin/menu:section-advanced]] > [[admin/menu:development/logs]]" := by decide
example : titleKey "admin/manage/users" =
    "[[admin/menu:section-manage]] > [[admin/menu:manage/users]]" := by decide
end Scratch
